import Mathlib

/-!
Shallow embedding of the goxkey input-method core: the `InputState`
buffer/tracking model from `src/input.rs` and the keystroke handler from
`src/main.rs`.  Strings are modelled as `List Char`; Rust's byte-oriented
`String::len` is modelled by `utf8Len`; fallible arithmetic (`usize`
subtraction that can underflow, i.e. panic) returns `Option`.  External
collaborators (the `vi` transliteration crate, the dictionary validator,
the allow-list, the platform text-selection probe) are parameters.
-/

namespace Goxkey

/-- Number of UTF-8 bytes a `Char` occupies (Rust `char::len_utf8`). -/
def charUtf8Size (c : Char) : Nat :=
  if c.toNat < 0x80 then 1
  else if c.toNat < 0x800 then 2
  else if c.toNat < 0x10000 then 3
  else 4

/-- Byte length of a string, as Rust `String::len` counts it. -/
def utf8Len (s : List Char) : Nat := (s.map charUtf8Size).sum

/-- Rust `char::to_ascii_lowercase`. -/
def asciiLower (c : Char) : Char :=
  if 'A' ≤ c ∧ c ≤ 'Z' then Char.ofNat (c.toNat + 32) else c

/-- Rust `char::to_ascii_uppercase`. -/
def asciiUpper (c : Char) : Char :=
  if 'a' ≤ c ∧ c ≤ 'z' then Char.ofNat (c.toNat - 32) else c

/-- ASCII digit test (the digit keystrokes `char::is_numeric` sees). -/
def isAsciiDigit (c : Char) : Bool := '0' ≤ c && c ≤ '9'

/-- `p` is an initial segment of `s`. -/
def beginsWith : List Char → List Char → Bool
  | [], _ => true
  | _ :: _, [] => false
  | p :: ps, s :: ss => p == s && beginsWith ps ss

/-- Rust `str::contains`: `needle` occurs contiguously inside `hay`. -/
def containsSeq (hay needle : List Char) : Bool :=
  beginsWith needle hay ||
    (match hay with
     | [] => false
     | _ :: t => containsSeq t needle)

/-- `const MAX_POSSIBLE_WORD_LENGTH: usize = 10;` in `src/input.rs`. -/
def MAX_POSSIBLE_WORD_LENGTH : Nat := 10

/-- `TONE_DUPLICATE_PATTERNS` from `src/input.rs` (all 16 entries). -/
def TONE_DUPLICATE_PATTERNS : List (List Char) :=
  [String.toList "ss", String.toList "ff", String.toList "jj",
   String.toList "rr", String.toList "xx", String.toList "ww",
   String.toList "kk", String.toList "tt", String.toList "nn",
   String.toList "mm", String.toList "yy", String.toList "hh",
   String.toList "ii", String.toList "aaa", String.toList "eee",
   String.toList "ooo"]

/-- `STOP_TRACKING_WORDS` from `src/input.rs`: `;`, `'`, `?`, `/`. -/
def STOP_TRACKING_WORDS : List (List Char) :=
  [[';'], [Char.ofNat 39], ['?'], ['/']]

/-- The punctuation/symbol set matched in `event_handler` of `src/main.rs`
(the literal characters of its `contains` string, braces, backtick,
apostrophe and double quote written via `Char.ofNat`). -/
def SPECIAL_CHARS : List Char :=
  ['(', ')', '[', ']', Char.ofNat 123, Char.ofNat 125, '<', '>', '/',
   Char.ofNat 92, '!', '@', '#', '$', '%', '^', '&', '*', '-', '_', '=',
   '+', '|', '~', Char.ofNat 96, ',', '.', ';', Char.ofNat 39,
   Char.ofNat 34, '/']

/-- `TypingMethod` from `src/input.rs`. -/
inductive TypingMethod where
  | VNI
  | Telex
deriving DecidableEq

/-- Modifier bitset from `src/platform/mod.rs` (`KeyModifier` bitflags). -/
structure KeyModifier where
  shift : Bool
  sup : Bool
  control : Bool
  alt : Bool
  capslock : Bool
deriving DecidableEq

/-- `KeyModifier::is_empty` (bitflags: no flag set at all). -/
def KeyModifier.is_empty (m : KeyModifier) : Bool :=
  !m.shift && !m.sup && !m.control && !m.alt && !m.capslock

/-- `KeyModifier::is_shift`. -/
def KeyModifier.is_shift (m : KeyModifier) : Bool := m.shift

/-- `KeyModifier::is_super`. -/
def KeyModifier.is_super (m : KeyModifier) : Bool := m.sup

/-- `KeyModifier::is_alt`. -/
def KeyModifier.is_alt (m : KeyModifier) : Bool := m.alt

/-- `KeyModifier::is_capslock`. -/
def KeyModifier.is_capslock (m : KeyModifier) : Bool := m.capslock

/-- The state-machine-relevant fields of `InputState` (`src/input.rs`). -/
structure InputState where
  buffer : List Char
  display_buffer : List Char
  previous_word : List Char
  method : TypingMethod
  enabled : Bool
  should_track : Bool
  is_macro_enabled : Bool
  macro_table : List (List Char × List Char)
deriving DecidableEq

/-- `InputState::clear`: snapshot the typing buffer into `previous_word`,
then empty both buffers. -/
def InputState.clear (st : InputState) : InputState :=
  { st with previous_word := st.buffer, buffer := [], display_buffer := [] }

/-- `InputState::new_word`: clear when the buffer is non-empty, then
re-arm tracking. -/
def InputState.new_word (st : InputState) : InputState :=
  let st1 := if st.buffer ≠ [] then st.clear else st
  { st1 with should_track := true }

/-- `InputState::stop_tracking`: clear and suspend tracking. -/
def InputState.stop_tracking (st : InputState) : InputState :=
  { st.clear with should_track := false }

/-- `InputState::replace`: overwrite the display buffer only. -/
def InputState.replace (st : InputState) (buf : List Char) : InputState :=
  { st with display_buffer := buf }

/-- `InputState::push`: append to both buffers unless the typing buffer's
byte length is already above `MAX_POSSIBLE_WORD_LENGTH` (the source guard
is `self.buffer.len() <= MAX_POSSIBLE_WORD_LENGTH`, a byte count). -/
def InputState.push (st : InputState) (c : Char) : InputState :=
  if utf8Len st.buffer ≤ MAX_POSSIBLE_WORD_LENGTH then
    { st with buffer := st.buffer ++ [c],
              display_buffer := st.display_buffer ++ [c] }
  else st

/-- `InputState::pop`: drop the last character of the display buffer,
copy the result over the typing buffer, and start a new word if it became
empty. -/
def InputState.pop (st : InputState) : InputState :=
  let st1 := { st with display_buffer := st.display_buffer.dropLast }
  let st2 := { st1 with buffer := st1.display_buffer }
  if st2.buffer = [] then st2.new_word else st2

/-- Checked `usize` subtraction: `none` models the underflow panic. -/
def checkedSub (a b : Nat) : Option Nat :=
  if b ≤ a then some (a - b) else none

/-- `InputState::get_backspace_count`.  `sel` is the result of the
platform probe `is_in_text_selection()`; the character count of the
display buffer is `chars().count()`. -/
def InputState.get_backspace_count (st : InputState) (is_delete : Bool)
    (sel : Bool) : Option Nat :=
  let dp_len := st.display_buffer.length
  let base := if is_delete && decide (1 ≤ dp_len) then some dp_len
              else checkedSub dp_len 1
  base.map (fun n => if sel then n + 1 else n)

/-- `InputState::previous_word_is_stop_tracking_words`. -/
def InputState.previous_word_is_stop_tracking_words (st : InputState) : Bool :=
  STOP_TRACKING_WORDS.contains st.previous_word

/-- `InputState::should_stop_tracking`: byte length above the limit,
a doubled-tone pattern inside the lowercased buffer, or a stop-word
`previous_word`. -/
def InputState.should_stop_tracking (st : InputState) : Bool :=
  if MAX_POSSIBLE_WORD_LENGTH < utf8Len st.buffer then true
  else if TONE_DUPLICATE_PATTERNS.any
      (fun p => containsSeq (st.buffer.map asciiLower) p) then true
  else if st.previous_word_is_stop_tracking_words then true
  else false

/-- `InputState::stop_tracking_if_needed`. -/
def InputState.stop_tracking_if_needed (st : InputState) : InputState :=
  if st.should_stop_tracking then st.stop_tracking else st

/-- Association-list lookup modelling `BTreeMap::get`. -/
def macroLookup : List (List Char × List Char) → List Char →
    Option (List Char)
  | [], _ => none
  | (k, v) :: rest, key => if k = key then some v else macroLookup rest key

/-- `InputState::get_macro_target`: macro-table lookup of the display
buffer, gated on `is_macro_enabled`. -/
def InputState.get_macro_target (st : InputState) : Option (List Char) :=
  if st.is_macro_enabled then macroLookup st.macro_table st.display_buffer
  else none

/-- `InputState::should_send_keyboard_event`: the transformed word
differs from the typing buffer. -/
def InputState.should_send_keyboard_event (st : InputState)
    (word : List Char) : Bool :=
  !(st.buffer == word)

/-- A synthetic OS event emitted by the reconciliation sink
(`send_backspace` / `send_string` in `src/main.rs`). -/
inductive Emission where
  | backspace (n : Nat)
  | sendStr (s : List Char)
deriving DecidableEq

/-- Output of one `vi` transliteration call in the revision of
`src/main.rs` present here: the transformed word plus the two removal
flags consulted by `do_transform_keys`. -/
structure EngineOutput where
  out : List Char
  letter_modification_removed : Bool
  tone_mark_removed : Bool
deriving DecidableEq

/-- `InputState::transform_keys`: runs the external engine on the typing
buffer under `catch_unwind`; an engine panic (modelled as `none`) becomes
`Err(())`. -/
def InputState.transform_keys (st : InputState)
    (engine : List Char → Option EngineOutput) : Except Unit EngineOutput :=
  match engine st.buffer with
  | some o => Except.ok o
  | none => Except.error ()

/-- `do_restore_word` (`src/main.rs`): delete the displayed word and
re-send the raw typing buffer verbatim, making it the new display
buffer.  `none` models the `usize` underflow panic of
`get_backspace_count` on an empty display buffer. -/
def do_restore_word (st : InputState) (sel : Bool) :
    Option (InputState × List Emission) :=
  match st.get_backspace_count true sel with
  | none => none
  | some n =>
      some (st.replace st.buffer,
            [Emission.backspace n, Emission.sendStr st.buffer])

/-- `do_macro_replace` (`src/main.rs`): delete the displayed word and
send the macro replacement verbatim, making it the new display buffer. -/
def do_macro_replace (st : InputState) (sel : Bool) (target : List Char) :
    Option (InputState × List Emission) :=
  match st.get_backspace_count true sel with
  | none => none
  | some n =>
      some (st.replace target,
            [Emission.backspace n, Emission.sendStr target])

/-- `do_transform_keys` (`src/main.rs`): on engine panic do nothing and
report `false`; otherwise when the output differs from the typing buffer
(or a delete triggered the call) emit the Firefox pre-selection
workaround (`ff`), the backspaces and the new word, update the display
buffer, and suspend tracking when the engine removed a modification. -/
def do_transform_keys (st : InputState)
    (engine : List Char → Option EngineOutput) (is_delete : Bool)
    (sel ff : Bool) : Option (InputState × List Emission × Bool) :=
  match st.transform_keys engine with
  | Except.error _ => some (st, [], false)
  | Except.ok o =>
      if st.should_send_keyboard_event o.out || is_delete then
        match st.get_backspace_count is_delete sel with
        | none => none
        | some n =>
            let pre : List Emission :=
              if ff then [Emission.sendStr [' '], Emission.backspace 1]
              else []
            let st1 := st.replace o.out
            let st2 := if o.letter_modification_removed ||
                          o.tone_mark_removed
                       then st1.stop_tracking else st1
            some (st2, pre ++ [Emission.backspace n, Emission.sendStr o.out],
                  true)
      else some (st, [], false)

/-- Classified keys reaching the `PressedKey::Char` arm of
`event_handler`: the four word-boundary control characters, delete, or a
printable character. -/
inductive Key where
  | enter
  | tab
  | space
  | escape
  | delete
  | ch (c : Char)
deriving DecidableEq

/-- The commit check at a word-boundary key (`src/main.rs` lines
157-167): restore exactly when the display buffer was transformed, is
not dictionary-valid and is not allow-listed.  `val` and `allow` are the
external `vi::validation::is_valid_word` and allow-list predicates. -/
def commit_check (st : InputState) (val allow : List Char → Bool)
    (sel : Bool) : Option (InputState × List Emission) :=
  let is_valid_word := val st.display_buffer
  let is_allowed_word := allow st.display_buffer
  let is_transformed_word := !(st.buffer == st.display_buffer)
  if is_transformed_word && !is_valid_word && !is_allowed_word then
    do_restore_word st sel
  else some (st, [])

/-- The `previous_word` cleanup at a word-boundary key. -/
def clear_previous_word_if_stop (st : InputState) : InputState :=
  if st.previous_word_is_stop_tracking_words then
    { st with previous_word := [] }
  else st

/-- The macro arm at a word-boundary key: only Tab and Space consult the
macro table. -/
def macro_step (st : InputState) (key : Key) (sel : Bool) :
    Option (InputState × List Emission) :=
  if key = Key.tab ∨ key = Key.space then
    match st.get_macro_target with
    | some tgt => do_macro_replace st sel tgt
    | none => some (st, [])
  else some (st, [])

/-- The whole word-boundary arm of `event_handler`: commit check, then
`previous_word` cleanup, then the macro arm, then `new_word`. -/
def boundary_step (st : InputState) (key : Key)
    (val allow : List Char → Bool) (sel : Bool) :
    Option (InputState × List Emission) :=
  match commit_check st val allow sel with
  | none => none
  | some (st1, ems1) =>
      match macro_step (clear_previous_word_if_stop st1) key sel with
      | none => none
      | some (st2, ems2) => some (st2.new_word, ems1 ++ ems2)

/-- The `PressedKey::Char` arm of `event_handler` (`src/main.rs`),
both the enabled and the disabled branch.  The returned `Bool` is the
handler's "suppress original event" result for this arm. -/
def event_handler_char (st : InputState) (key : Key) (mods : KeyModifier)
    (val allow : List Char → Bool)
    (engine : List Char → Option EngineOutput) (sel ff : Bool) :
    Option (InputState × List Emission × Bool) :=
  if st.enabled then
    match key with
    | Key.enter => (boundary_step st key val allow sel).map
        (fun p => (p.1, p.2, false))
    | Key.tab => (boundary_step st key val allow sel).map
        (fun p => (p.1, p.2, false))
    | Key.space => (boundary_step st key val allow sel).map
        (fun p => (p.1, p.2, false))
    | Key.escape => (boundary_step st key val allow sel).map
        (fun p => (p.1, p.2, false))
    | Key.delete =>
        if !mods.is_empty && !mods.is_shift then
          some (st.new_word, [], false)
        else some (st.pop, [], false)
    | Key.ch c =>
        if SPECIAL_CHARS.contains c || (isAsciiDigit c && mods.is_shift)
        then
          some ((if isAsciiDigit c then st.push c else st).new_word, [],
                false)
        else if mods.is_super || mods.is_alt then
          some (st.new_word, [], false)
        else if st.should_track then
          match do_transform_keys
              (st.push (if mods.is_shift || mods.is_capslock
                        then asciiUpper c else c))
              engine false sel ff with
          | none => none
          | some (st2, ems, ret) =>
              some (st2.stop_tracking_if_needed, ems, ret)
        else some (st, [], false)
  else
    match key with
    | Key.enter => some (st.new_word, [], false)
    | Key.tab => some (st.new_word, [], false)
    | Key.space => some (st.new_word, [], false)
    | Key.escape => some (st.new_word, [], false)
    | _ =>
        if !mods.is_empty then some (st.new_word, [], false)
        else some (st, [], false)

/-- An operation drawn from the pair `push` / `replace`, the only two
writers of the buffers during in-word typing. -/
inductive BufOp where
  | push (c : Char)
  | repl (s : List Char)
deriving DecidableEq

/-- Apply one buffer operation. -/
def applyOp (st : InputState) : BufOp → InputState
  | BufOp.push c => st.push c
  | BufOp.repl s => st.replace s

/-- Apply a sequence of buffer operations left to right. -/
def applyOps (st : InputState) (ops : List BufOp) : InputState :=
  ops.foldl applyOp st

/-- The characters pushed by a sequence of buffer operations, in order. -/
def pushedChars (ops : List BufOp) : List Char :=
  ops.filterMap (fun o => match o with
    | BufOp.push c => some c
    | BufOp.repl _ => none)

/-! ### Helper lemmas and witness states -/

/-- A default state: empty buffers, Telex, enabled, tracking, macros on. -/
def baseState : InputState :=
  { buffer := [], display_buffer := [], previous_word := [],
    method := TypingMethod.Telex, enabled := true, should_track := true,
    is_macro_enabled := true, macro_table := [] }

/-- No modifier key held. -/
def noMods : KeyModifier := ⟨false, false, false, false, false⟩

theorem get_backspace_count_of_delete (st : InputState)
    (h : st.display_buffer ≠ []) :
    st.get_backspace_count true false = some st.display_buffer.length := by
  have h1 : 1 ≤ st.display_buffer.length := List.length_pos.mpr h
  simp [InputState.get_backspace_count, h1]

theorem do_restore_word_eq (st : InputState) (h : st.display_buffer ≠ []) :
    do_restore_word st false =
      some (st.replace st.buffer,
            [Emission.backspace st.display_buffer.length,
             Emission.sendStr st.buffer]) := by
  unfold do_restore_word
  rw [get_backspace_count_of_delete st h]

theorem clear_previous_word_if_stop_display (st : InputState) :
    (clear_previous_word_if_stop st).display_buffer = st.display_buffer := by
  unfold clear_previous_word_if_stop
  split <;> rfl

theorem clear_previous_word_if_stop_buffer (st : InputState) :
    (clear_previous_word_if_stop st).buffer = st.buffer := by
  unfold clear_previous_word_if_stop
  split <;> rfl

theorem clear_previous_word_if_stop_target (st : InputState) :
    (clear_previous_word_if_stop st).get_macro_target =
      st.get_macro_target := by
  unfold clear_previous_word_if_stop InputState.get_macro_target
  split <;> rfl

theorem macro_step_total (st : InputState) (key : Key)
    (h : st.display_buffer ≠ []) :
    ∃ st2 ems2, macro_step st key false = some (st2, ems2) := by
  unfold macro_step
  split
  · cases hm : st.get_macro_target with
    | none => exact ⟨st, [], by simp [hm]⟩
    | some tgt =>
        refine ⟨st.replace tgt,
          [Emission.backspace st.display_buffer.length,
           Emission.sendStr tgt], ?_⟩
        simp only [hm]
        unfold do_macro_replace
        rw [get_backspace_count_of_delete st h]
  · exact ⟨st, [], rfl⟩

theorem boundary_step_eq (st st1 st2 : InputState) (key : Key)
    (val allow : List Char → Bool) (ems1 ems2 : List Emission)
    (hc : commit_check st val allow false = some (st1, ems1))
    (hm : macro_step (clear_previous_word_if_stop st1) key false =
      some (st2, ems2)) :
    boundary_step st key val allow false =
      some (st2.new_word, ems1 ++ ems2) := by
  unfold boundary_step
  simp only [hc, hm]

theorem event_handler_char_boundary (st : InputState) (key : Key)
    (mods : KeyModifier) (val allow : List Char → Bool)
    (engine : List Char → Option EngineOutput) (sel ff : Bool)
    (hk : key = Key.enter ∨ key = Key.tab ∨ key = Key.space ∨
      key = Key.escape)
    (hen : st.enabled = true) :
    event_handler_char st key mods val allow engine sel ff =
      (boundary_step st key val allow sel).map
        (fun p => (p.1, p.2, false)) := by
  rcases hk with rfl | rfl | rfl | rfl <;>
    simp [event_handler_char, hen]

theorem new_word_should_track (st : InputState) :
    (st.new_word).should_track = true := rfl

/-- `pop` characterized without the intermediate lets. -/
theorem pop_eq (st : InputState) :
    st.pop =
      (if st.display_buffer.dropLast = [] then
        ({ st with buffer := st.display_buffer.dropLast,
                   display_buffer := st.display_buffer.dropLast } :
          InputState).new_word
       else
        { st with buffer := st.display_buffer.dropLast,
                  display_buffer := st.display_buffer.dropLast }) := rfl

theorem pop_display (st : InputState) :
    (st.pop).display_buffer = st.display_buffer.dropLast := by
  rw [pop_eq]
  by_cases hb : st.display_buffer.dropLast = []
  · rw [if_pos hb]
    unfold InputState.new_word
    simp [hb]
  · rw [if_neg hb]

theorem pop_buffer (st : InputState) :
    (st.pop).buffer = st.display_buffer.dropLast := by
  rw [pop_eq]
  by_cases hb : st.display_buffer.dropLast = []
  · rw [if_pos hb]
    unfold InputState.new_word
    simp [hb]
  · rw [if_neg hb]

theorem new_word_clears_of_ne (st : InputState) (h : st.buffer ≠ []) :
    (st.new_word).buffer = [] ∧ (st.new_word).display_buffer = [] := by
  unfold InputState.new_word
  simp [h, InputState.clear]

/-! ### Claim theorems -/

/-- C3 state: the display buffer holds the four characters of `chaò`. -/
def c3state : InputState :=
  { baseState with buffer := String.toList "chao",
                   display_buffer := ['c', 'h', 'a', 'ò'] }

/-- C3: with a non-empty display buffer and no active text pre-selection,
`get_backspace_count` returns the character count of the display buffer
when `is_delete` is true, and that count minus one when it is false. -/
theorem get_backspace_count_correct (st : InputState)
    (h : st.display_buffer ≠ []) :
    st.get_backspace_count true false = some st.display_buffer.length ∧
    st.get_backspace_count false false =
      some (st.display_buffer.length - 1) := by
  have h1 : 1 ≤ st.display_buffer.length := List.length_pos.mpr h
  constructor
  · exact get_backspace_count_of_delete st h
  · simp [InputState.get_backspace_count, checkedSub, h1]

/-- C3 witness: on display `chaò` (4 characters) the counts are 4 and 3. -/
theorem get_backspace_count_correct_witness :
    c3state.get_backspace_count true false = some 4 ∧
    c3state.get_backspace_count false false = some 3 := by
  have h := get_backspace_count_correct c3state (by decide)
  simpa using h

/-- C10: on an empty display buffer the `dp_len - 1` subtraction
underflows (the checked model returns `none`) for both values of
`is_delete`, because the guard `is_delete && dp_len >= 1` routes the
empty delete case into the subtracting branch; on a non-empty display
buffer the function always returns a count. -/
theorem get_backspace_count_empty_underflow (st : InputState)
    (d sel : Bool) :
    (st.display_buffer = [] → st.get_backspace_count d sel = none) ∧
    (st.display_buffer ≠ [] → (st.get_backspace_count d sel).isSome) := by
  constructor
  · intro h
    simp [InputState.get_backspace_count, h, checkedSub]
  · intro h
    have h1 : 1 ≤ st.display_buffer.length := List.length_pos.mpr h
    cases d <;> simp [InputState.get_backspace_count, checkedSub, h1]

/-- C10 witness: the empty display underflows for both flags, and the
`chaò` display does not. -/
theorem get_backspace_count_empty_underflow_witness :
    baseState.get_backspace_count true false = none ∧
    baseState.get_backspace_count false false = none ∧
    (c3state.get_backspace_count true false).isSome := by
  exact ⟨(get_backspace_count_empty_underflow baseState true false).1 rfl,
         (get_backspace_count_empty_underflow baseState false false).1 rfl,
         (get_backspace_count_empty_underflow c3state true false).2
           (by decide)⟩

/-- C5 state: one tracked character in both buffers. -/
def c5state : InputState :=
  { baseState with buffer := ['a'], display_buffer := ['a'] }

/-- C5 counterexample: `stop_tracking` leaves the typing buffer empty
with `should_track = false`, so "typing buffer empty implies
`should_track`" is not an invariant of every operation. -/
theorem stop_tracking_breaks_empty_invariant :
    (c5state.stop_tracking).buffer = [] ∧
    (c5state.stop_tracking).should_track = false := by decide

/-- C5 amended: `new_word` always re-arms tracking, and a `pop` that
empties the buffer re-arms tracking, but `stop_tracking` deliberately
leaves the buffer empty with `should_track = false` (the Suspended
state), so the claimed invariant holds only outside suspension. -/
theorem empty_buffer_tracking_amended (st : InputState) :
    (st.new_word).should_track = true ∧
    ((st.pop).buffer = [] → (st.pop).should_track = true) ∧
    (st.stop_tracking).buffer = [] ∧
    (st.stop_tracking).should_track = false := by
  refine ⟨rfl, ?_, rfl, rfl⟩
  intro h
  rw [pop_buffer] at h
  rw [pop_eq, if_pos h]
  rfl

/-- C5 amended witness: popping the one-character state empties the
buffer and leaves tracking re-armed. -/
theorem empty_buffer_tracking_amended_witness :
    (c5state.pop).should_track = true :=
  (empty_buffer_tracking_amended c5state).2.1 (by decide)

/-- C4 state: ten ASCII characters in the typing buffer, exactly the
`MAX_POSSIBLE_WORD_LENGTH` byte limit. -/
def c4state : InputState :=
  { baseState with buffer := String.toList "aaaaaaaaaa",
                   display_buffer := String.toList "aaaaaaaaaa" }

/-- C4 counterexample: the guard `buffer.len() <= MAX_POSSIBLE_WORD_LENGTH`
accepts a push at exactly the limit, so a buffer of ten characters grows
to eleven instead of dropping the push. -/
theorem push_at_limit_not_dropped :
    (c4state.push 'b').buffer.length = 11 ∧
    (c4state.push 'b').buffer ≠ c4state.buffer := by decide

theorem charUtf8Size_le_four (c : Char) : charUtf8Size c ≤ 4 := by
  unfold charUtf8Size
  split
  · omega
  · split
    · omega
    · split <;> omega

theorem utf8Len_append_one (s : List Char) (c : Char) :
    utf8Len (s ++ [c]) = utf8Len s + charUtf8Size c := by
  simp [utf8Len]

theorem utf8Len_eq_length (s : List Char)
    (h : ∀ x ∈ s, charUtf8Size x = 1) : utf8Len s = s.length := by
  induction s with
  | nil => rfl
  | cons a t ih =>
      simp only [utf8Len, List.map_cons, List.sum_cons, List.length_cons]
      rw [h a (List.mem_cons_self a t)]
      have := ih (fun x hx => h x (List.mem_cons_of_mem a hx))
      simp only [utf8Len] at this
      omega

/-- C4 amended: a push is dropped exactly when the typing buffer's byte
length already exceeds `MAX_POSSIBLE_WORD_LENGTH` (10) — a push at byte
length exactly 10 is still accepted — so the preserved bounds are byte
length at most 14 in general and character length at most 11 for
all-ASCII buffers. -/
theorem push_length_invariant_amended (st : InputState) (c : Char) :
    (utf8Len st.buffer ≤ MAX_POSSIBLE_WORD_LENGTH →
      (st.push c).buffer = st.buffer ++ [c] ∧
      (st.push c).display_buffer = st.display_buffer ++ [c]) ∧
    (MAX_POSSIBLE_WORD_LENGTH < utf8Len st.buffer → st.push c = st) ∧
    (utf8Len st.buffer ≤ 14 → utf8Len (st.push c).buffer ≤ 14) ∧
    ((∀ x ∈ st.buffer, charUtf8Size x = 1) → st.buffer.length ≤ 11 →
      (st.push c).buffer.length ≤ 11) := by
  refine ⟨?_, ?_, ?_, ?_⟩
  · intro h
    unfold InputState.push
    rw [if_pos h]
    exact ⟨rfl, rfl⟩
  · intro h
    unfold InputState.push
    rw [if_neg (by omega)]
  · intro h
    unfold InputState.push
    split
    · have hc4 := charUtf8Size_le_four c
      simp only [utf8Len_append_one]
      unfold MAX_POSSIBLE_WORD_LENGTH at *
      omega
    · exact h
  · intro hascii hlen
    unfold InputState.push
    split
    · have := utf8Len_eq_length st.buffer hascii
      unfold MAX_POSSIBLE_WORD_LENGTH at *
      simp only [List.length_append, List.length_singleton]
      omega
    · exact hlen

/-- C4 amended witness: at exactly ten ASCII characters the push is
accepted and the eleven-character bound holds; at eleven characters the
push is dropped. -/
theorem push_length_invariant_amended_witness :
    (c4state.push 'b').buffer =
      String.toList "aaaaaaaaaa" ++ ['b'] ∧
    ((c4state.push 'b').push 'c') = c4state.push 'b' ∧
    (c4state.push 'b').buffer.length ≤ 11 := by
  refine ⟨((push_length_invariant_amended c4state 'b').1 (by decide)).1,
          (push_length_invariant_amended (c4state.push 'b') 'c').2.1
            (by decide),
          (push_length_invariant_amended c4state 'b').2.2.2 (by decide)
            (by decide)⟩

/-- C6 state: a transformed word — typing buffer `as`, display `á`. -/
def c6state : InputState :=
  { baseState with buffer := ['a', 's'], display_buffer := ['á'] }

/-- C6 counterexample: on a plain Delete, `pop` does not remove exactly
one character from the typing buffer — it overwrites it with the popped
display buffer, here shrinking `as` (2 characters) straight to empty
instead of to `a`. -/
theorem delete_pop_counterexample :
    event_handler_char c6state Key.delete noMods (fun _ => false)
        (fun _ => false) (fun _ => none) false false =
      some ({ buffer := [], display_buffer := [], previous_word := [],
              method := TypingMethod.Telex, enabled := true,
              should_track := true, is_macro_enabled := true,
              macro_table := [] }, [], false) ∧
    c6state.buffer.dropLast = ['a'] := by decide

/-- C6 amended: while enabled, Delete with a non-shift modifier held is
a word boundary (`new_word`); otherwise (no modifiers, or shift held)
`pop` runs: it removes the last character of the display buffer
(character-accurate) and sets the typing buffer to a copy of the popped
display buffer — which removes one character from both only when the two
buffers were equal — and re-arms tracking if the buffer became empty. -/
theorem delete_key_amended (st : InputState) (mods : KeyModifier)
    (val allow : List Char → Bool)
    (engine : List Char → Option EngineOutput) (sel ff : Bool)
    (hen : st.enabled = true) :
    (mods.is_empty = false → mods.is_shift = false →
      event_handler_char st Key.delete mods val allow engine sel ff =
        some (st.new_word, [], false)) ∧
    ((mods.is_empty = true ∨ mods.is_shift = true) →
      event_handler_char st Key.delete mods val allow engine sel ff =
        some (st.pop, [], false)) ∧
    (st.pop).display_buffer = st.display_buffer.dropLast ∧
    (st.pop).buffer = st.display_buffer.dropLast ∧
    (st.display_buffer.dropLast = [] → (st.pop).should_track = true) := by
  refine ⟨?_, ?_, pop_display st, pop_buffer st, ?_⟩
  · intro h1 h2
    simp [event_handler_char, hen, h1, h2]
  · intro h
    rcases h with h | h <;> simp [event_handler_char, hen, h]
  · intro h
    rw [pop_eq, if_pos h]
    rfl

/-- C6 amended witness: ctrl+Delete on the `as`/`á` state is a word
boundary, and plain Delete pops down to the empty, re-armed state. -/
theorem delete_key_amended_witness :
    event_handler_char c6state Key.delete ⟨false, false, true, false, false⟩
        (fun _ => false) (fun _ => false) (fun _ => none) false false =
      some (c6state.new_word, [], false) ∧
    event_handler_char c6state Key.delete noMods (fun _ => false)
        (fun _ => false) (fun _ => none) false false =
      some (c6state.pop, [], false) ∧
    (c6state.pop).should_track = true := by
  refine ⟨(delete_key_amended c6state ⟨false, false, true, false, false⟩
            (fun _ => false) (fun _ => false) (fun _ => none) false false
            rfl).1 rfl rfl,
          (delete_key_amended c6state noMods (fun _ => false)
            (fun _ => false) (fun _ => none) false false rfl).2.1
            (Or.inl rfl), ?_⟩
  exact (delete_key_amended c6state noMods (fun _ => false)
    (fun _ => false) (fun _ => none) false false rfl).2.2.2.2 (by decide)

/-- C7: whenever the lowercased typing buffer contains one of the
doubled-tone patterns, or the buffer's byte length exceeds the limit, or
`previous_word` is a stop word, `should_stop_tracking` holds and
`stop_tracking_if_needed` suspends: both buffers cleared,
`should_track = false`. -/
theorem hard_stop_suspends (st : InputState)
    (h : (∃ p ∈ TONE_DUPLICATE_PATTERNS,
            containsSeq (st.buffer.map asciiLower) p = true) ∨
         MAX_POSSIBLE_WORD_LENGTH < utf8Len st.buffer ∨
         st.previous_word ∈ STOP_TRACKING_WORDS) :
    st.should_stop_tracking = true ∧
    (st.stop_tracking_if_needed).buffer = [] ∧
    (st.stop_tracking_if_needed).display_buffer = [] ∧
    (st.stop_tracking_if_needed).should_track = false := by
  have hs : st.should_stop_tracking = true := by
    unfold InputState.should_stop_tracking
    rcases h with h | h | h
    · rcases h with ⟨p, hp, hc⟩
      have hany : TONE_DUPLICATE_PATTERNS.any
          (fun p => containsSeq (st.buffer.map asciiLower) p) = true :=
        List.any_eq_true.mpr ⟨p, hp, hc⟩
      simp [hany]
    · simp [h]
    · have hw : st.previous_word_is_stop_tracking_words = true := by
        unfold InputState.previous_word_is_stop_tracking_words
        exact List.elem_eq_true_of_mem h
      simp [hw]
  refine ⟨hs, ?_, ?_, ?_⟩ <;>
    · unfold InputState.stop_tracking_if_needed
      rw [if_pos hs]
      rfl

/-- State with `ss` in both buffers. -/
def c7state : InputState :=
  { baseState with buffer := ['s', 's'], display_buffer := ['s', 's'] }

/-- C7 witness: typing buffer `ss` triggers suspension. -/
theorem hard_stop_suspends_witness :
    c7state.stop_tracking_if_needed.should_track = false := by
  exact (hard_stop_suspends c7state (Or.inl (by decide))).2.2.2

/-- C9: an engine panic (modelled as `none`) makes `transform_keys`
return the error value, and `do_transform_keys` then emits nothing,
leaves the state untouched and reports the keystroke unhandled. -/
theorem engine_panic_skips_reconciliation (st : InputState)
    (engine : List Char → Option EngineOutput) (d sel ff : Bool)
    (h : engine st.buffer = none) :
    st.transform_keys engine = Except.error () ∧
    do_transform_keys st engine d sel ff = some (st, [], false) := by
  constructor
  · unfold InputState.transform_keys
    rw [h]
  · unfold do_transform_keys InputState.transform_keys
    rw [h]

/-- C9 witness: an always-panicking engine on the `chaò` state. -/
theorem engine_panic_skips_reconciliation_witness :
    c3state.transform_keys (fun _ => none) = Except.error () ∧
    do_transform_keys c3state (fun _ => none) false false false =
      some (c3state, [], false) :=
  engine_panic_skips_reconciliation c3state (fun _ => none) false false
    false rfl

/-- C1 state: typing buffer `thw`, displayed as the Telex rendering
`thư` (a transformed, three-character display). -/
def c1state : InputState :=
  { baseState with buffer := String.toList "thw",
                   display_buffer := ['t', 'h', 'ư'] }

/-- C1: at a word-boundary key while enabled (with both buffers
non-empty and no text pre-selection), the commit check that leads the
word-boundary handling emits a restore if and only if the display buffer
differs from the typing buffer, is not dictionary-valid and is not
allow-listed; the restore deletes the displayed word (one backspace per
character) and re-sends the raw typing buffer verbatim, after which the
display buffer equals the typing buffer. -/
theorem boundary_restore_iff (st : InputState) (key : Key)
    (mods : KeyModifier) (val allow : List Char → Bool)
    (engine : List Char → Option EngineOutput) (ff : Bool)
    (hk : key = Key.enter ∨ key = Key.tab ∨ key = Key.space ∨
      key = Key.escape)
    (hen : st.enabled = true)
    (hd : st.display_buffer ≠ []) (hb : st.buffer ≠ []) :
    ∃ st1 ems1 rest stF,
      commit_check st val allow false = some (st1, ems1) ∧
      event_handler_char st key mods val allow engine false ff =
        some (stF, ems1 ++ rest, false) ∧
      ((st.buffer ≠ st.display_buffer ∧ val st.display_buffer = false ∧
          allow st.display_buffer = false) ↔
        (ems1 = [Emission.backspace st.display_buffer.length,
                 Emission.sendStr st.buffer] ∧
         st1.display_buffer = st1.buffer ∧ st1.buffer = st.buffer)) := by
  have hhandler := event_handler_char_boundary st key mods val allow
    engine false ff hk hen
  by_cases hcond : st.buffer ≠ st.display_buffer ∧
      val st.display_buffer = false ∧ allow st.display_buffer = false
  · have hb1 : (st.buffer == st.display_buffer) = false :=
      beq_eq_false_iff_ne.mpr hcond.1
    have hc : commit_check st val allow false =
        some (st.replace st.buffer,
          [Emission.backspace st.display_buffer.length,
           Emission.sendStr st.buffer]) := by
      unfold commit_check
      rw [← do_restore_word_eq st hd]
      simp [hb1, hcond.2.1, hcond.2.2]
    have hd1 : (clear_previous_word_if_stop
        (st.replace st.buffer)).display_buffer ≠ [] := by
      rw [clear_previous_word_if_stop_display]
      exact hb
    obtain ⟨st2, ems2, hm⟩ :=
      macro_step_total (clear_previous_word_if_stop (st.replace st.buffer))
        key hd1
    have hbs := boundary_step_eq st (st.replace st.buffer) st2 key val
      allow _ ems2 hc hm
    refine ⟨st.replace st.buffer,
      [Emission.backspace st.display_buffer.length,
       Emission.sendStr st.buffer], ems2, st2.new_word, hc, ?_, ?_⟩
    · rw [hhandler, hbs]
      rfl
    · exact iff_of_true hcond ⟨rfl, rfl, rfl⟩
  · have hc : commit_check st val allow false = some (st, []) := by
      unfold commit_check
      by_cases h1 : st.buffer = st.display_buffer
      · simp [h1]
      · have h2 : val st.display_buffer = true ∨
            allow st.display_buffer = true := by
          by_contra hno
          push_neg at hno
          exact hcond ⟨h1, by simpa using hno.1, by simpa using hno.2⟩
        rcases h2 with h2 | h2 <;> simp [h2]
    have hd1 : (clear_previous_word_if_stop st).display_buffer ≠ [] := by
      rw [clear_previous_word_if_stop_display]
      exact hd
    obtain ⟨st2, ems2, hm⟩ :=
      macro_step_total (clear_previous_word_if_stop st) key hd1
    have hbs := boundary_step_eq st st st2 key val allow [] ems2 hc hm
    refine ⟨st, [], ems2, st2.new_word, hc, ?_, ?_⟩
    · rw [hhandler, hbs]
      rfl
    · exact iff_of_false hcond (fun h => by simp at h)

/-- C1 witness: at Space on the transformed, invalid, non-allow-listed
state `thw`/`thư`, the commit check emits exactly the restore. -/
theorem boundary_restore_iff_witness :
    ∃ st1 ems1 rest stF,
      commit_check c1state (fun _ => false) (fun _ => false) false =
        some (st1, ems1) ∧
      event_handler_char c1state Key.space noMods (fun _ => false)
          (fun _ => false) (fun _ => none) false false =
        some (stF, ems1 ++ rest, false) ∧
      ems1 = [Emission.backspace 3,
              Emission.sendStr (String.toList "thw")] := by
  obtain ⟨st1, ems1, rest, stF, h1, h2, h3⟩ :=
    boundary_restore_iff c1state Key.space noMods (fun _ => false)
      (fun _ => false) (fun _ => none) false
      (Or.inr (Or.inr (Or.inl rfl))) rfl (by decide) (by decide)
  refine ⟨st1, ems1, rest, stF, h1, h2, ?_⟩
  have := (h3.mp ⟨by decide, rfl, rfl⟩).1
  simpa using this

/-- C2 state: typing buffer `btww` displayed as the macro key `btw`,
with the macro table mapping `btw` to `by the way`. -/
def c2state : InputState :=
  { baseState with buffer := String.toList "btww",
                   display_buffer := String.toList "btw",
                   macro_table :=
                     [(String.toList "btw", String.toList "by the way")] }

/-- C2 counterexample: with the display buffer `btw` an exact macro key
but transformed, dictionary-invalid and non-allow-listed, Tab runs the
restore first (sending backspaces and the raw `btww`) and the macro is
then looked up against the restored display buffer and misses — the
claimed macro precedence (one reconciliation inserting `by the way`, no
restore) does not hold. -/
theorem macro_does_not_skip_restore :
    event_handler_char c2state Key.tab noMods (fun _ => false)
        (fun _ => false) (fun _ => none) false false =
      some ({ buffer := [], display_buffer := [],
              previous_word := String.toList "btww",
              method := TypingMethod.Telex, enabled := true,
              should_track := true, is_macro_enabled := true,
              macro_table :=
                [(String.toList "btw", String.toList "by the way")] },
            [Emission.backspace 3,
             Emission.sendStr (String.toList "btww")],
            false) := by decide

/-- C2 amended: at Tab/Space the commit check runs before the macro
lookup; when the display buffer was not transformed (it equals the
typing buffer, so no restore can fire) and the macro lookup hits,
exactly one reconciliation is emitted: delete the displayed word, insert
the replacement verbatim, then start a new word. -/
theorem macro_after_commit_check (st : InputState) (key : Key)
    (mods : KeyModifier) (val allow : List Char → Bool)
    (engine : List Char → Option EngineOutput) (ff : Bool)
    (tgt : List Char)
    (hk : key = Key.tab ∨ key = Key.space)
    (hen : st.enabled = true)
    (heq : st.display_buffer = st.buffer)
    (hd : st.display_buffer ≠ [])
    (hm : st.get_macro_target = some tgt) :
    ∃ stF,
      event_handler_char st key mods val allow engine false ff =
        some (stF, [Emission.backspace st.display_buffer.length,
                    Emission.sendStr tgt], false) ∧
      stF.display_buffer = [] ∧ stF.should_track = true := by
  have hc : commit_check st val allow false = some (st, []) := by
    unfold commit_check
    rw [heq]
    simp
  have hd1 : (clear_previous_word_if_stop st).display_buffer =
      st.display_buffer := clear_previous_word_if_stop_display st
  have hmac : (clear_previous_word_if_stop st).get_macro_target =
      some tgt := by
    rw [clear_previous_word_if_stop_target]
    exact hm
  have hms : macro_step (clear_previous_word_if_stop st) key false =
      some ((clear_previous_word_if_stop st).replace tgt,
        [Emission.backspace st.display_buffer.length,
         Emission.sendStr tgt]) := by
    unfold macro_step
    rw [if_pos hk]
    simp only [hmac]
    unfold do_macro_replace
    rw [get_backspace_count_of_delete _ (by rw [hd1]; exact hd), hd1]
  have hbs := boundary_step_eq st st
    ((clear_previous_word_if_stop st).replace tgt) key val allow [] _
    hc hms
  have hk4 : key = Key.enter ∨ key = Key.tab ∨ key = Key.space ∨
      key = Key.escape := by
    rcases hk with rfl | rfl
    · exact Or.inr (Or.inl rfl)
    · exact Or.inr (Or.inr (Or.inl rfl))
  have hbuf : ((clear_previous_word_if_stop st).replace tgt).buffer ≠
      [] := by
    show (clear_previous_word_if_stop st).buffer ≠ []
    rw [clear_previous_word_if_stop_buffer]
    rw [heq] at hd
    exact hd
  obtain ⟨hclr1, hclr2⟩ :=
    new_word_clears_of_ne ((clear_previous_word_if_stop st).replace tgt)
      hbuf
  refine ⟨((clear_previous_word_if_stop st).replace tgt).new_word, ?_,
    hclr2, rfl⟩
  rw [event_handler_char_boundary st key mods val allow engine false ff
    hk4 hen, hbs]
  rfl

/-- State in which `btw` was typed literally: both buffers `btw`, with
the `btw` to `by the way` macro installed. -/
def c2wstate : InputState :=
  { baseState with buffer := String.toList "btw",
                   display_buffer := String.toList "btw",
                   macro_table :=
                     [(String.toList "btw", String.toList "by the way")] }

/-- C2 amended witness: typing `btw` literally (untransformed) and
hitting Tab emits exactly one reconciliation: delete `btw`, insert
`by the way`. -/
theorem macro_after_commit_check_witness :
    ∃ stF,
      event_handler_char c2wstate Key.tab noMods (fun _ => false)
          (fun _ => false) (fun _ => none) false false =
        some (stF, [Emission.backspace c2wstate.display_buffer.length,
                    Emission.sendStr (String.toList "by the way")],
              false) ∧
      stF.display_buffer = [] ∧ stF.should_track = true :=
  macro_after_commit_check c2wstate Key.tab noMods (fun _ => false)
    (fun _ => false) (fun _ => none) false (String.toList "by the way")
    (Or.inl rfl) rfl rfl (by decide) (by decide)

/-- C8 frame lemma: over any interleaving of `push` and `replace`, the
typing buffer collects exactly the pushed characters, as long as it
stays within the byte bound that keeps every push accepted. -/
theorem applyOps_buffer (ops : List BufOp) (st : InputState)
    (ha : ∀ x ∈ st.buffer, charUtf8Size x = 1)
    (hb : ∀ x ∈ pushedChars ops, charUtf8Size x = 1)
    (hlen : st.buffer.length + (pushedChars ops).length ≤ 11) :
    (applyOps st ops).buffer = st.buffer ++ pushedChars ops := by
  induction ops generalizing st with
  | nil => simp [applyOps, pushedChars]
  | cons op rest ih =>
      cases op with
      | repl s =>
          have h1 : applyOps st (BufOp.repl s :: rest) =
              applyOps (st.replace s) rest := rfl
          have h2 : pushedChars (BufOp.repl s :: rest) =
              pushedChars rest := rfl
          rw [h1, h2]
          exact ih (st.replace s) ha (by rw [h2] at hb; exact hb)
            (by rw [h2] at hlen; exact hlen)
      | push c =>
          have h2 : pushedChars (BufOp.push c :: rest) =
              c :: pushedChars rest := rfl
          rw [h2] at hb hlen
          have hlc : utf8Len st.buffer = st.buffer.length :=
            utf8Len_eq_length _ ha
          have hle : utf8Len st.buffer ≤ MAX_POSSIBLE_WORD_LENGTH := by
            rw [hlc]
            unfold MAX_POSSIBLE_WORD_LENGTH
            simp only [List.length_cons] at hlen
            omega
          have hpush : (st.push c).buffer = st.buffer ++ [c] := by
            unfold InputState.push
            rw [if_pos hle]
          have h1 : applyOps st (BufOp.push c :: rest) =
              applyOps (st.push c) rest := rfl
          rw [h1, h2]
          have hc1 : charUtf8Size c = 1 :=
            hb c (List.mem_cons_self c _)
          have ihr := ih (st.push c)
            (by
              rw [hpush]
              intro x hx
              rcases List.mem_append.mp hx with hx | hx
              · exact ha x hx
              · rw [List.mem_singleton.mp hx]
                exact hc1)
            (fun x hx => hb x (List.mem_cons_of_mem c hx))
            (by
              rw [hpush]
              simp only [List.length_append, List.length_singleton,
                List.length_cons, List.length_nil] at *
              omega)
          rw [ihr, hpush]
          simp

/-- C8: `replace` writes only the display buffer, leaving every other
field of the state unchanged, while `push` appends to both buffers; so
after any interleaving of at most ten accepted single-byte pushes with
`replace` calls, starting from an empty word, the typing buffer is the
literal keystroke sequence. -/
theorem replace_frame_and_ground_truth (st0 : InputState) (s : List Char)
    (ops : List BufOp)
    (hempty : st0.buffer = [])
    (hascii : ∀ x ∈ pushedChars ops, charUtf8Size x = 1)
    (hlen : (pushedChars ops).length ≤ 10) :
    (st0.replace s).buffer = st0.buffer ∧
    (st0.replace s).previous_word = st0.previous_word ∧
    (st0.replace s).should_track = st0.should_track ∧
    (st0.replace s).enabled = st0.enabled ∧
    (st0.replace s).method = st0.method ∧
    (st0.replace s).is_macro_enabled = st0.is_macro_enabled ∧
    (st0.replace s).macro_table = st0.macro_table ∧
    (st0.replace s).display_buffer = s ∧
    (applyOps st0 ops).buffer = pushedChars ops := by
  refine ⟨rfl, rfl, rfl, rfl, rfl, rfl, rfl, rfl, ?_⟩
  have h := applyOps_buffer ops st0
    (by rw [hempty]; intro x hx; simp at hx)
    hascii
    (by rw [hempty]; simp only [List.length_nil]; omega)
  rw [h, hempty]
  rfl

/-- C8 witness: pushes of `t`, `h`, `w` interleaved with two `replace`
calls leave the typing buffer exactly `thw`. -/
theorem replace_frame_and_ground_truth_witness :
    (applyOps baseState
      [BufOp.push 't', BufOp.repl ['x'], BufOp.push 'h',
       BufOp.repl ['y'], BufOp.push 'w']).buffer = ['t', 'h', 'w'] := by
  have h := replace_frame_and_ground_truth baseState ['z']
    [BufOp.push 't', BufOp.repl ['x'], BufOp.push 'h',
     BufOp.repl ['y'], BufOp.push 'w'] rfl (by decide) (by decide)
  exact h.2.2.2.2.2.2.2.2

end Goxkey
